import Mathlib

/-!
# KnowStack: verification of the processing pipeline, job engine,
# hybrid retrieval, rate limiter and document API

Shallow embedding of the KnowStack repository (Python/FastAPI).
Modules embedded:

* `app/services/rate_limit.py` — sliding-window rate limiter;
* `app/services/processing.py` — `run_job`, `process_document_sync`,
  retry/backoff state machine;
* `app/services/ingestion.py` — `normalize_text`, `extract_text`,
  `split_into_chunks`;
* `app/services/retrieval.py` — `rewrite_query`, `hybrid_retrieve`;
* `app/routes/v1.py` — `create_document`, `upload_document` dedup logic.

Python strings are modelled as `List Char`; wall-clock times
(`time.time()`, `datetime.now()`) as `ℚ`; the database session as
explicit state records threaded through the functions; fallible code
returns `Except`/`Option`.  External collaborators (file system, PDF and
DOCX parsers, Qdrant vector store) are passed in as oracle parameters,
matching the graceful-degradation contract of the source.
-/

/-- Relevant fields of `app/core/config.py::Settings`, with the
default values declared there. -/
structure Settings where
  rate_limit_per_minute : Nat := 60
  retrieval_limit : Nat := 200
  rerank_top_k : Nat := 5
  job_max_attempts : Nat := 3
  job_retry_base_seconds : Nat := 10
  max_upload_mb : Nat := 25
  local_upload_dir : List Char := "./uploaded_files".toList
  deriving Repr

/-- The process-wide `settings` object (all defaults, as in the repo). -/
def settings : Settings := {}

/-! ## Rate limiter (`app/services/rate_limit.py`) -/

/-- The eviction loop of `enforce_rate_limit`:
`while bucket and now - bucket[0] > window_seconds: bucket.popleft()`
with `window_seconds = 60`.  The bucket is a queue of timestamps,
front first. -/
def evictOld (now : ℚ) : List ℚ → List ℚ
  | [] => []
  | t :: rest => if now - t > 60 then evictOld now rest else t :: rest

/-- `enforce_rate_limit` acting on a single identity's bucket: evict
expired timestamps, reject (raise HTTP 429) iff the remaining count has
reached `settings.rate_limit_per_minute`, otherwise append `now`.
Returns `(admitted?, new bucket)`. -/
def enforce_rate_limit (now : ℚ) (bucket : List ℚ) : Bool × List ℚ :=
  let b := evictOld now bucket
  if settings.rate_limit_per_minute ≤ b.length then (false, b)
  else (true, b ++ [now])

/-- The module-level `_BUCKETS: dict[str, deque[float]] = defaultdict(deque)`
map, as a total function (absent identities map to the empty deque). -/
def Buckets := String → List ℚ

/-- `enforce_rate_limit(user_id)` acting on the whole `_BUCKETS` map. -/
def enforceRateLimitState (now : ℚ) (user_id : String) (s : Buckets) :
    Bool × Buckets :=
  let r := enforce_rate_limit now (s user_id)
  (r.1, fun u => if u = user_id then r.2 else s u)

/-! ## Job engine (`app/services/processing.py::run_job`) -/

/-- One row of the `job` table, restricted to the columns `run_job`
reads or writes. `payload_document_id` models
`str(payload.get("document_id") ...)`. -/
structure Job where
  id : String := ""
  user_id : String := ""
  job_type : String := "document_process"
  payload_document_id : String := ""
  status : String := "queued"
  attempts : Nat := 0
  max_attempts : Nat := 3
  next_run_at : ℤ := 0
  error : Option String := none
  started_at : Option ℤ := none
  finished_at : Option ℤ := none
  deriving Repr, DecidableEq

/-- `int(job.get("max_attempts") or settings.job_max_attempts)`:
a SQL NULL (modelled as 0, the falsy value) falls back to the setting. -/
def Job.effMax (j : Job) : Nat :=
  if j.max_attempts = 0 then settings.job_max_attempts else j.max_attempts

/-- The `try` block of `run_job`: dispatch on the job type, check the
payload, and run `process_document_sync` (whose outcome is the
parameter `exec`).  Any `.error` models a raised exception. -/
def jobOutcome (exec : Except String Unit) (job : Job) :
    Except String Unit :=
  if job.job_type = "document_process" then
    if job.payload_document_id = "" then
      .error "Job payload missing document_id"
    else exec
  else .error ("Unsupported job type: " ++ job.job_type)

/-- `run_job(db, job_id)` for an existing job row.  `tClaim` is the
`datetime.now` at claim time, `tFinish` the one at the retry/terminal
update; `exec` is the outcome of `process_document_sync` for this
invocation (`.error msg` models a raised exception).  Returns the
string `run_job` returns together with the updated row.

Faithful to the source: the claim update (`status='processing'`,
`started_at`, `attempts+1`) is unconditional — there is no guard on the
current status — and the failure handler recomputes
`attempts = int(job.get("attempts") or 0) + 1` from the pre-claim
snapshot. -/
def run_job (tClaim tFinish : ℤ) (exec : Except String Unit) (job : Job) :
    String × Job :=
  let claimed := { job with
    status := "processing", started_at := some tClaim,
    attempts := job.attempts + 1 }
  match jobOutcome exec job with
  | .error e =>
    let attempts := job.attempts + 1
    if attempts < job.effMax then
      ("queued", { claimed with
        status := "queued", error := some e,
        next_run_at :=
          tFinish + (settings.job_retry_base_seconds * 2 ^ (attempts - 1) : ℕ),
        finished_at := none })
    else
      ("failed", { claimed with
        status := "failed", error := some e, finished_at := some tFinish })
  | .ok _ =>
    ("completed", { claimed with
      status := "completed", finished_at := some tFinish })

/-- A sequence of `run_job` invocations in which a job is only run while
its status is `'queued'` (the gate the worker poller's
`fetch_queued_job_ids` applies; invocations on non-queued jobs are
skipped).  Each list entry carries the two timestamps and the execution
outcome of one invocation. -/
def runSeqQueued : List (ℤ × ℤ × Except String Unit) → Job → Job
  | [], j => j
  | (t1, t2, e) :: rest, j =>
    runSeqQueued rest (if j.status = "queued" then (run_job t1 t2 e j).2 else j)

/-! ## Rate limiter lemmas -/

/-- If nothing in the bucket is older than the window, eviction is a no-op. -/
theorem evictOld_of_all_recent {now : ℚ} {b : List ℚ}
    (h : ∀ x ∈ b, now - x ≤ 60) : evictOld now b = b := by
  induction b with
  | nil => rfl
  | cons t rest ih =>
    have ht : now - t ≤ 60 := h t (List.mem_cons_self t rest)
    simp [evictOld, not_lt.mpr ht]

theorem evictOld_length_le (now : ℚ) (b : List ℚ) :
    (evictOld now b).length ≤ b.length := by
  induction b with
  | nil => simp [evictOld]
  | cons t rest ih =>
    by_cases h : now - t > 60
    · simp only [evictOld, if_pos h]
      exact ih.trans (Nat.le_succ _)
    · simp [evictOld, if_neg h]

/-- Evicting at a later time after evicting at an earlier time is the
same as evicting once at the later time. -/
theorem evictOld_evictOld {now t' : ℚ} (h : now ≤ t') (b : List ℚ) :
    evictOld t' (evictOld now b) = evictOld t' b := by
  induction b with
  | nil => rfl
  | cons t rest ih =>
    by_cases hcut : now - t > 60
    · have hcut' : t' - t > 60 := lt_of_lt_of_le hcut (by linarith)
      simp only [evictOld, if_pos hcut, if_pos hcut', ih]
    · simp only [evictOld, if_neg hcut]

/-- A run of consecutive admission checks for one identity: fold
`enforce_rate_limit` over the list of check times, collecting the
admission flags and the final bucket. -/
def admitRun : List ℚ → List ℚ → List Bool × List ℚ
  | [], b => ([], b)
  | t :: ts, b =>
    let r := enforce_rate_limit t b
    let rest := admitRun ts r.2
    (r.1 :: rest.1, rest.2)

/-- As long as the total number of timestamps stays within the limit
and every pair of involved times is within the 60-second window, every
check in a run is admitted and the bucket simply accumulates the check
times. -/
theorem admitRun_all_admitted (ts : List ℚ) (b : List ℚ)
    (hspan : ∀ x ∈ b ++ ts, ∀ y ∈ b ++ ts, y - x ≤ 60)
    (hlen : b.length + ts.length ≤ settings.rate_limit_per_minute) :
    admitRun ts b = (List.replicate ts.length true, b ++ ts) := by
  induction ts generalizing b with
  | nil => simp [admitRun]
  | cons t ts ih =>
    have hmem_t : t ∈ b ++ t :: ts := by simp
    have hnoev : evictOld t b = b :=
      evictOld_of_all_recent (fun x hx =>
        hspan x (by simp [hx]) t hmem_t)
    have hblt : b.length < settings.rate_limit_per_minute := by
      simp only [List.length_cons] at hlen; omega
    have hstep : enforce_rate_limit t b = (true, b ++ [t]) := by
      simp [enforce_rate_limit, hnoev, Nat.not_le.mpr hblt]
    have hspan' : ∀ x ∈ (b ++ [t]) ++ ts, ∀ y ∈ (b ++ [t]) ++ ts, y - x ≤ 60 := by
      intro x hx y hy
      apply hspan <;> simp only [List.append_assoc, List.singleton_append] at * <;>
        assumption
    have hlen' : (b ++ [t]).length + ts.length ≤ settings.rate_limit_per_minute := by
      simp only [List.length_append, List.length_singleton]
      simp only [List.length_cons] at hlen; omega
    simp only [admitRun, hstep, ih (b ++ [t]) hspan' hlen', List.length_cons,
      List.replicate_succ, List.append_assoc, List.singleton_append]

/-- **C7**: with the per-minute limit configured to 60, an identity's 60
consecutive admission checks within a 60-second span all succeed, the
61st within that span is rejected (HTTP 429), and once more than 60
seconds have elapsed since the earliest recorded admission a check
succeeds again; in general a check is rejected exactly when, after
evicting timestamps older than 60 seconds, the window still holds at
least the configured limit of timestamps. -/
theorem C7_rate_limit_window (ts : List ℚ) (t61 tLater t0 : ℚ)
    (hlen : ts.length = 60)
    (hspan : ∀ x ∈ ts, ∀ y ∈ ts, y - x ≤ 60)
    (h61 : ∀ x ∈ ts, t61 - x ≤ 60)
    (hhead : ts.head? = some t0)
    (hLater : tLater - t0 > 60) :
    (∀ (now : ℚ) (b : List ℚ),
        (enforce_rate_limit now b).1 = false ↔
          settings.rate_limit_per_minute ≤ (evictOld now b).length) ∧
    (admitRun ts []).1 = List.replicate 60 true ∧
    (enforce_rate_limit t61 (admitRun ts []).2).1 = false ∧
    (enforce_rate_limit tLater (admitRun ts []).2).1 = true := by
  have hrun : admitRun ts [] = (List.replicate ts.length true, [] ++ ts) :=
    admitRun_all_admitted ts [] (by simpa using hspan)
      (by rw [List.length_nil, hlen]; decide)
  refine ⟨?_, ?_, ?_, ?_⟩
  · intro now b
    unfold enforce_rate_limit
    by_cases h : settings.rate_limit_per_minute ≤ (evictOld now b).length
    · simp [h]
    · simp [h]
  · rw [hrun, hlen]
  · rw [hrun]
    have hb : evictOld t61 ts = ts := evictOld_of_all_recent h61
    have hge : settings.rate_limit_per_minute ≤ ts.length := by
      rw [hlen]; decide
    simp [enforce_rate_limit, hb, hge]
  · rw [hrun]
    cases ts with
    | nil => simp at hhead
    | cons a rest =>
      have ha : a = t0 := by simpa using hhead
      have hrest : rest.length = 59 := by
        simpa using hlen
      have hev : evictOld tLater ([] ++ a :: rest) = evictOld tLater rest := by
        subst ha
        simp [evictOld, hLater]
      unfold enforce_rate_limit
      rw [hev]
      have hlt : (evictOld tLater rest).length < settings.rate_limit_per_minute := by
        have := evictOld_length_le tLater rest
        rw [hrest] at this
        calc (evictOld tLater rest).length ≤ 59 := this
          _ < settings.rate_limit_per_minute := by decide
      simp [Nat.not_le.mpr hlt]

/-- Witness for `C7_rate_limit_window`: 60 admissions at time 0, a 61st
check still at time 0, and a later check at time 61. -/
theorem C7_rate_limit_window_witness :
    ((List.replicate 60 (0:ℚ)).length = 60 ∧
      (∀ x ∈ List.replicate 60 (0:ℚ), ∀ y ∈ List.replicate 60 (0:ℚ),
        y - x ≤ 60) ∧
      (∀ x ∈ List.replicate 60 (0:ℚ), (0:ℚ) - x ≤ 60) ∧
      (List.replicate 60 (0:ℚ)).head? = some 0 ∧ (61:ℚ) - 0 > 60) ∧
    ((∀ (now : ℚ) (b : List ℚ),
        (enforce_rate_limit now b).1 = false ↔
          settings.rate_limit_per_minute ≤ (evictOld now b).length) ∧
      (admitRun (List.replicate 60 (0:ℚ)) []).1 = List.replicate 60 true ∧
      (enforce_rate_limit 0 (admitRun (List.replicate 60 (0:ℚ)) []).2).1 = false ∧
      (enforce_rate_limit 61 (admitRun (List.replicate 60 (0:ℚ)) []).2).1 = true) :=
  have h1 : (List.replicate 60 (0:ℚ)).length = 60 := by simp
  have h2 : ∀ x ∈ List.replicate 60 (0:ℚ), ∀ y ∈ List.replicate 60 (0:ℚ),
      y - x ≤ 60 := fun x hx y hy => by
    rw [List.eq_of_mem_replicate hx, List.eq_of_mem_replicate hy]; norm_num
  have h3 : ∀ x ∈ List.replicate 60 (0:ℚ), (0:ℚ) - x ≤ 60 := fun x hx => by
    rw [List.eq_of_mem_replicate hx]; norm_num
  have h4 : (List.replicate 60 (0:ℚ)).head? = some 0 := by simp
  have h5 : (61:ℚ) - 0 > 60 := by norm_num
  ⟨⟨h1, h2, h3, h4, h5⟩,
    C7_rate_limit_window (List.replicate 60 (0:ℚ)) 0 61 0 h1 h2 h3 h4 h5⟩

/-- **C10**: a rejected admission check does not append the rejected
request's timestamp — its only effect on the identity's window is the
eviction of expired timestamps — windows of other identities are
untouched, and any later check sees exactly the window it would have
seen had the rejected check never happened. -/
theorem C10_rejected_check_frame (now t' : ℚ) (uid : String) (s : Buckets)
    (hrej : (enforce_rate_limit now (s uid)).1 = false)
    (hle : now ≤ t') :
    (enforceRateLimitState now uid s).2 uid = evictOld now (s uid) ∧
    (∀ u, u ≠ uid → (enforceRateLimitState now uid s).2 u = s u) ∧
    evictOld t' ((enforceRateLimitState now uid s).2 uid) =
      evictOld t' (s uid) := by
  have hb : (enforce_rate_limit now (s uid)).2 = evictOld now (s uid) := by
    unfold enforce_rate_limit at hrej ⊢
    by_cases h : settings.rate_limit_per_minute ≤ (evictOld now (s uid)).length
    · simp [h]
    · simp [h] at hrej
  refine ⟨?_, ?_, ?_⟩
  · simp [enforceRateLimitState, hb]
  · intro u hu
    simp [enforceRateLimitState, hu]
  · simp only [enforceRateLimitState, if_pos rfl, hb]
    exact evictOld_evictOld hle (s uid)

/-- Witness for `C10_rejected_check_frame`: a full window of 60
timestamps at time 0 rejects a check at time 0. -/
theorem C10_rejected_check_frame_witness :
    ((enforce_rate_limit 0 ((fun _ => List.replicate 60 (0:ℚ)) "u")).1 = false ∧
      (0:ℚ) ≤ 0) ∧
    ((enforceRateLimitState 0 "u" (fun _ => List.replicate 60 (0:ℚ))).2 "u" =
        evictOld 0 ((fun _ => List.replicate 60 (0:ℚ)) "u") ∧
      (∀ u, u ≠ "u" →
        (enforceRateLimitState 0 "u" (fun _ => List.replicate 60 (0:ℚ))).2 u =
          (fun _ => List.replicate 60 (0:ℚ)) u) ∧
      evictOld 0 ((enforceRateLimitState 0 "u"
          (fun _ => List.replicate 60 (0:ℚ))).2 "u") =
        evictOld 0 ((fun _ => List.replicate 60 (0:ℚ)) "u")) :=
  have h1 : (enforce_rate_limit 0
      ((fun _ => List.replicate 60 (0:ℚ)) "u")).1 = false := by
    have hall : ∀ x ∈ List.replicate 60 (0:ℚ), (0:ℚ) - x ≤ 60 := fun x hx => by
      rw [List.eq_of_mem_replicate hx]; norm_num
    have hb := evictOld_of_all_recent hall
    have hge : settings.rate_limit_per_minute ≤
        (List.replicate 60 (0:ℚ)).length := by
      simp only [List.length_replicate]; decide
    simp only [enforce_rate_limit, hb]
    rw [if_pos hge]
  have h2 : (0:ℚ) ≤ 0 := le_refl 0
  ⟨⟨h1, h2⟩, C10_rejected_check_frame 0 0 "u" (fun _ => List.replicate 60 (0:ℚ)) h1 h2⟩

/-! ## Job engine lemmas and claims -/

theorem job_retry_base_eq : settings.job_retry_base_seconds = 10 := rfl

/-- **C2**: when execution fails and the post-claim attempt count is
still below `max_attempts`, `run_job` puts the job back in `'queued'`
with `next_run_at = now + base_seconds * 2^(attempts-1)` where
`attempts = job.attempts + 1` is the post-claim count; with the default
base of 10s, failures on attempts 1, 2, 3 schedule deltas of 10s, 20s
and 40s. -/
theorem C2_retry_backoff (tClaim tFinish : ℤ) (e : String)
    (exec : Except String Unit) (job : Job)
    (hfail : jobOutcome exec job = .error e)
    (hlt : job.attempts + 1 < job.effMax) :
    run_job tClaim tFinish exec job =
      ("queued", { job with
        status := "queued", started_at := some tClaim,
        attempts := job.attempts + 1, error := some e,
        next_run_at :=
          tFinish + (settings.job_retry_base_seconds * 2 ^ job.attempts : ℕ),
        finished_at := none }) ∧
    (job.attempts = 0 →
      (run_job tClaim tFinish exec job).2.next_run_at = tFinish + 10) ∧
    (job.attempts = 1 →
      (run_job tClaim tFinish exec job).2.next_run_at = tFinish + 20) ∧
    (job.attempts = 2 →
      (run_job tClaim tFinish exec job).2.next_run_at = tFinish + 40) := by
  have hmain : run_job tClaim tFinish exec job =
      ("queued", { job with
        status := "queued", started_at := some tClaim,
        attempts := job.attempts + 1, error := some e,
        next_run_at :=
          tFinish + (settings.job_retry_base_seconds * 2 ^ job.attempts : ℕ),
        finished_at := none }) := by
    simp [run_job, hfail, hlt]
  refine ⟨hmain, ?_, ?_, ?_⟩ <;> intro h <;>
    simp [hmain, h, job_retry_base_eq]

/-- A freshly enqueued `document_process` job, as inserted by
`enqueue_document_job` (status `'queued'`, `attempts = 0`,
`max_attempts = settings.job_max_attempts`). -/
def freshJob : Job := { id := "j1", user_id := "u", payload_document_id := "d1" }

/-- Witness for `C2_retry_backoff`: the first failure of a fresh job
schedules a retry 10 seconds out. -/
theorem C2_retry_backoff_witness :
    (jobOutcome (.error "boom") freshJob = .error "boom" ∧
      freshJob.attempts + 1 < freshJob.effMax) ∧
    (run_job 0 5 (.error "boom") freshJob =
      ("queued", { freshJob with
        status := "queued", started_at := some 0,
        attempts := freshJob.attempts + 1, error := some "boom",
        next_run_at :=
          (5 + (settings.job_retry_base_seconds * 2 ^ freshJob.attempts : ℕ) : ℤ),
        finished_at := none }) ∧
      (freshJob.attempts = 0 →
        (run_job 0 5 (.error "boom") freshJob).2.next_run_at = 5 + 10) ∧
      (freshJob.attempts = 1 →
        (run_job 0 5 (.error "boom") freshJob).2.next_run_at = 5 + 20) ∧
      (freshJob.attempts = 2 →
        (run_job 0 5 (.error "boom") freshJob).2.next_run_at = 5 + 40)) :=
  ⟨⟨rfl, by decide⟩,
    C2_retry_backoff 0 5 "boom" (.error "boom") freshJob rfl (by decide)⟩

/-- A job that has already reached the terminal status `'completed'`. -/
def completedJob : Job :=
  { id := "j2", user_id := "u", payload_document_id := "d2",
    status := "completed", attempts := 1, max_attempts := 3,
    started_at := some 0, finished_at := some 1 }

/-- **C3** (code bug): invoking `run_job` on a job already in the
terminal status `'completed'` is *not* a no-op — the job is re-claimed
and re-executed, its attempts counter is incremented, and if the
re-execution fails the job even transitions out of the terminal state
back to `'queued'`.  The spec mandates a no-op returning the current
terminal state. -/
theorem C3_terminal_rerun_not_noop :
    (run_job 2 3 (.ok ()) completedJob).2.attempts =
      completedJob.attempts + 1 ∧
    (run_job 2 3 (.ok ()) completedJob).2 ≠ completedJob ∧
    (run_job 2 3 (.error "boom") completedJob).1 = "queued" ∧
    (run_job 2 3 (.error "boom") completedJob).2.status = "queued" := by
  decide

/-- **C4** (counterexample): a fresh job run to the `'failed'` terminal
state by three failures, then run once more (nothing in `run_job`
prevents this), ends with `attempts = 4 > max_attempts = 3` and — if
the fourth execution succeeds — leaves `'failed'` for `'completed'`. -/
theorem C4_counterexample :
    ((run_job 4 5 (.ok ())
        ((run_job 2 3 (.error "x")
          ((run_job 1 2 (.error "x")
            ((run_job 0 1 (.error "x") freshJob).2)).2)).2)).2).attempts = 4 ∧
    freshJob.max_attempts = 3 ∧
    ((run_job 2 3 (.error "x")
        ((run_job 1 2 (.error "x")
          ((run_job 0 1 (.error "x") freshJob).2)).2)).2).status = "failed" ∧
    ((run_job 4 5 (.ok ())
        ((run_job 2 3 (.error "x")
          ((run_job 1 2 (.error "x")
            ((run_job 0 1 (.error "x") freshJob).2)).2)).2)).2).status =
      "completed" := by
  decide

/-- The inductive invariant of the retry state machine, for runs that
only ever execute `'queued'` jobs. -/
def JobInv (j : Job) : Prop :=
  j.attempts ≤ j.effMax ∧
  (j.status = "queued" → j.attempts < j.effMax) ∧
  (j.status = "failed" → j.attempts = j.effMax)

/-- Field bookkeeping of one `run_job` invocation: `max_attempts` is
preserved, `attempts` is incremented exactly once (at claim time), and
the resulting status is `'queued'` (failure with attempts below the
bound), `'failed'` (failure at the bound) or `'completed'`. -/
theorem run_job_fields (t1 t2 : ℤ) (e : Except String Unit) (j : Job) :
    (run_job t1 t2 e j).2.max_attempts = j.max_attempts ∧
    (run_job t1 t2 e j).2.attempts = j.attempts + 1 ∧
    ((run_job t1 t2 e j).2.status = "queued" ∧ j.attempts + 1 < j.effMax ∨
     (run_job t1 t2 e j).2.status = "failed" ∧ ¬ j.attempts + 1 < j.effMax ∨
     (run_job t1 t2 e j).2.status = "completed") := by
  unfold run_job
  rcases hout : jobOutcome e j with msg | u
  · by_cases hlt : j.attempts + 1 < j.effMax
    · simp [hout, hlt]
    · simp [hout, hlt]
  · simp [hout]

/-- `Job.effMax` only depends on `max_attempts`. -/
theorem effMax_congr {j j' : Job} (h : j'.max_attempts = j.max_attempts) :
    j'.effMax = j.effMax := by
  simp [Job.effMax, h]

/-- One gated step preserves the invariant and `max_attempts`. -/
theorem jobInv_step (t1 t2 : ℤ) (e : Except String Unit) {j : Job}
    (hinv : JobInv j) :
    JobInv (if j.status = "queued" then (run_job t1 t2 e j).2 else j) ∧
    (if j.status = "queued" then (run_job t1 t2 e j).2 else j).max_attempts =
      j.max_attempts := by
  by_cases hq : j.status = "queued"
  · obtain ⟨hmax, hatt, hst⟩ := run_job_fields t1 t2 e j
    have hemax : (run_job t1 t2 e j).2.effMax = j.effMax := effMax_congr hmax
    have hlt : j.attempts < j.effMax := hinv.2.1 hq
    rw [if_pos hq]
    refine ⟨⟨?_, ?_, ?_⟩, hmax⟩
    · rcases hst with ⟨_, h⟩ | ⟨_, _⟩ | _
      · rw [hatt, hemax]; omega
      · rw [hatt, hemax]; omega
      · rw [hatt, hemax]; omega
    · intro hq'
      rcases hst with ⟨_, h⟩ | ⟨hs, _⟩ | hs
      · rw [hatt, hemax]; omega
      · rw [hq'] at hs; exact absurd hs (by decide)
      · rw [hq'] at hs; exact absurd hs (by decide)
    · intro hf
      rcases hst with ⟨hs, _⟩ | ⟨_, h⟩ | hs
      · rw [hf] at hs; exact absurd hs (by decide)
      · rw [hatt, hemax]; omega
      · rw [hf] at hs; exact absurd hs (by decide)
  · rw [if_neg hq]; exact ⟨hinv, rfl⟩

/-- The invariant holds after any gated run sequence. -/
theorem runSeqQueued_inv (seq : List (ℤ × ℤ × Except String Unit)) (j : Job)
    (hinv : JobInv j) :
    JobInv (runSeqQueued seq j) ∧
    (runSeqQueued seq j).max_attempts = j.max_attempts := by
  induction seq generalizing j with
  | nil => exact ⟨hinv, rfl⟩
  | cons s rest ih =>
    obtain ⟨t1, t2, e⟩ := s
    obtain ⟨hi, hm⟩ := jobInv_step t1 t2 e hinv
    obtain ⟨hi', hm'⟩ := ih _ hi
    exact ⟨hi', by rw [runSeqQueued, hm', hm]⟩

/-- **C4** (amended): for every job freshly enqueued (`attempts = 0`,
status `'queued'`, positive `max_attempts`) and every sequence of
`run_job` invocations *gated on the job being in status `'queued'`* (as
the worker poller's `status = 'queued'` fetch guarantees), the attempts
counter never exceeds `max_attempts`, and the job is in `'failed'` only
with `attempts = max_attempts`; under the gate a `'failed'` job is
never run again, so it never transitions out. -/
theorem C4_attempts_bounded (seq : List (ℤ × ℤ × Except String Unit))
    (j0 : Job) (hA : j0.attempts = 0) (hS : j0.status = "queued")
    (hM : 0 < j0.max_attempts) :
    (runSeqQueued seq j0).attempts ≤ j0.max_attempts ∧
    ((runSeqQueued seq j0).status = "failed" →
      (runSeqQueued seq j0).attempts = j0.max_attempts) ∧
    (runSeqQueued seq j0).max_attempts = j0.max_attempts := by
  have hemax : j0.effMax = j0.max_attempts := by
    simp [Job.effMax]; omega
  have hinv : JobInv j0 := by
    refine ⟨by omega, fun _ => by omega, fun hf => ?_⟩
    rw [hS] at hf; exact absurd hf (by decide)
  obtain ⟨⟨h1, _, h3⟩, hm⟩ := runSeqQueued_inv seq j0 hinv
  have hemax' : (runSeqQueued seq j0).effMax = j0.effMax := effMax_congr hm
  rw [hemax', hemax] at h1 h3
  exact ⟨h1, h3, hm⟩

/-- Witness for `C4_attempts_bounded`: three consecutive failures of a
fresh job end in `'failed'` with `attempts = max_attempts = 3`. -/
theorem C4_attempts_bounded_witness :
    (freshJob.attempts = 0 ∧ freshJob.status = "queued" ∧
      0 < freshJob.max_attempts) ∧
    ((runSeqQueued
        [(0, 1, .error "x"), (1, 2, .error "x"), (2, 3, .error "x")]
        freshJob).attempts ≤ freshJob.max_attempts ∧
      ((runSeqQueued
          [(0, 1, .error "x"), (1, 2, .error "x"), (2, 3, .error "x")]
          freshJob).status = "failed" →
        (runSeqQueued
          [(0, 1, .error "x"), (1, 2, .error "x"), (2, 3, .error "x")]
          freshJob).attempts = freshJob.max_attempts) ∧
      (runSeqQueued
        [(0, 1, .error "x"), (1, 2, .error "x"), (2, 3, .error "x")]
        freshJob).max_attempts = freshJob.max_attempts) :=
  ⟨⟨rfl, rfl, by decide⟩,
    C4_attempts_bounded
      [(0, 1, .error "x"), (1, 2, .error "x"), (2, 3, .error "x")]
      freshJob rfl rfl (by decide)⟩

/-! ## Text utilities (`app/services/ingestion.py`) -/

/-- Python `\s` restricted to the ASCII range. -/
def isSpaceChar (c : Char) : Bool :=
  c == ' ' || c == '\t' || c == '\n' || c == '\r' || c == '\x0b' || c == '\x0c'

/-- Python `\w` restricted to the ASCII range. -/
def isWordChar (c : Char) : Bool :=
  c.isAlphanum || c == '_'

/-- Python `str.strip()`. -/
def pyStrip (s : List Char) : List Char :=
  ((s.dropWhile isSpaceChar).reverse.dropWhile isSpaceChar).reverse

/-- `text.replace(" ", " ").replace("​", "")`, the first two
normalisation steps of `normalize_text`. -/
def stripSpecial (s : List Char) : List Char :=
  (s.map (fun c => if c == '\u00A0' then ' ' else c)).filter
    (fun c => c != '\u200B')

/-- One left-to-right scan of `re.sub(r"(\w)-\s*\n\s*(\w)", r"\1\2", ·)`:
a word character, a hyphen, a whitespace run containing a newline and a
word character collapse to the two word characters.  `fuel` bounds the
number of scan steps; the wrapper passes the input length, which always
suffices, so the `0` fallback is unreachable. -/
def joinHyphenWrapsGo : Nat → List Char → List Char
  | _, [] => []
  | 0, l => l
  | fuel + 1, c1 :: rest =>
    match rest with
    | r :: rest2 =>
      if r = '-' ∧ isWordChar c1 ∧ (rest2.takeWhile isSpaceChar).contains '\n' then
        match rest2.dropWhile isSpaceChar with
        | c2 :: rest4 =>
          if isWordChar c2 then c1 :: c2 :: joinHyphenWrapsGo fuel rest4
          else c1 :: joinHyphenWrapsGo fuel rest
        | [] => c1 :: joinHyphenWrapsGo fuel rest
      else c1 :: joinHyphenWrapsGo fuel rest
    | [] => c1 :: joinHyphenWrapsGo fuel rest

def joinHyphenWraps (s : List Char) : List Char := joinHyphenWrapsGo s.length s

/-- One scan of `re.sub(r"\s*\n\s*", "\n", ·)`: each maximal whitespace
run containing a newline collapses to a single newline. -/
def collapseNewlineRunsGo : Nat → List Char → List Char
  | _, [] => []
  | 0, l => l
  | fuel + 1, c :: rest =>
    if isSpaceChar c && ((c :: rest).takeWhile isSpaceChar).contains '\n' then
      '\n' :: collapseNewlineRunsGo fuel (rest.dropWhile isSpaceChar)
    else c :: collapseNewlineRunsGo fuel rest

def collapseNewlineRuns (s : List Char) : List Char :=
  collapseNewlineRunsGo s.length s

/-- One scan of `re.sub(r"[ \t]+", " ", ·)`. -/
def collapseSpaceRunsGo : Nat → List Char → List Char
  | _, [] => []
  | 0, l => l
  | fuel + 1, c :: rest =>
    if c == ' ' || c == '\t' then
      ' ' :: collapseSpaceRunsGo fuel
        (rest.dropWhile (fun x => x == ' ' || x == '\t'))
    else c :: collapseSpaceRunsGo fuel rest

def collapseSpaceRuns (s : List Char) : List Char :=
  collapseSpaceRunsGo s.length s

/-- One scan of `re.sub(r"\n{3,}", "\n\n", ·)`: runs of three or more
newlines collapse to exactly two. -/
def collapseBlankLinesGo : Nat → List Char → List Char
  | _, [] => []
  | 0, l => l
  | fuel + 1, c :: rest =>
    if c == '\n' && 3 ≤ ((c :: rest).takeWhile (fun x => x == '\n')).length then
      '\n' :: '\n' :: collapseBlankLinesGo fuel (rest.dropWhile (fun x => x == '\n'))
    else c :: collapseBlankLinesGo fuel rest

def collapseBlankLines (s : List Char) : List Char :=
  collapseBlankLinesGo s.length s

/-- `normalize_text` of `app/services/ingestion.py`. -/
def normalize_text (text : List Char) : List Char :=
  pyStrip (collapseBlankLines (collapseSpaceRuns (collapseNewlineRuns
    (joinHyphenWraps (stripSpecial text)))))

def headIsSpace : List Char → Bool
  | [] => false
  | c :: _ => isSpaceChar c

/-- `re.split(r"(?<=[.!?])\s+", text)`: split at each maximal whitespace
run directly preceded by `.`, `!` or `?`.  `acc` holds the piece being
built, reversed. -/
def splitSentencesGo : Nat → List Char → List Char → List (List Char)
  | _, acc, [] => [acc.reverse]
  | 0, acc, l => [acc.reverse ++ l]
  | fuel + 1, acc, c :: rest =>
    if (c == '.' || c == '!' || c == '?') && headIsSpace rest then
      (c :: acc).reverse :: splitSentencesGo fuel [] (rest.dropWhile isSpaceChar)
    else splitSentencesGo fuel (c :: acc) rest

def splitSentences (text : List Char) : List (List Char) :=
  splitSentencesGo text.length [] text

/-- The sentence-accumulation loop of `split_into_chunks`: the chunks
emitted from buffer state `current` on, over the remaining sentences.
The final non-empty buffer is always emitted. -/
def chunkLoop (chunk_size overlap : Nat) (current : List Char) :
    List (List Char) → List (List Char)
  | [] => if current.isEmpty then [] else [current]
  | s :: rest =>
    if current.length + s.length + 1 ≤ chunk_size then
      chunkLoop chunk_size overlap (pyStrip (current ++ ' ' :: s)) rest
    else if current.isEmpty then
      chunkLoop chunk_size overlap (pyStrip (current ++ ' ' :: s)) rest
    else
      current :: chunkLoop chunk_size overlap
        (pyStrip ((if 0 < overlap ∧ overlap < current.length then
            current.drop (current.length - overlap) else []) ++ ' ' :: s)) rest

/-- `split_into_chunks` of `app/services/ingestion.py`. -/
def split_into_chunks (text : List Char) (chunk_size : Nat := 800)
    (overlap : Nat := 120) : List (List Char) :=
  let t := normalize_text text
  if (pyStrip t).isEmpty then []
  else
    (chunkLoop chunk_size overlap [] (splitSentences (pyStrip t))).filter
      (fun c => !(pyStrip c).isEmpty)

/-! ## Chunker lemmas -/

theorem pyStrip_length_le (s : List Char) : (pyStrip s).length ≤ s.length := by
  have h1 : (s.dropWhile isSpaceChar).length ≤ s.length :=
    (List.dropWhile_sublist _).length_le
  have h2 : ((s.dropWhile isSpaceChar).reverse.dropWhile isSpaceChar).length ≤
      (s.dropWhile isSpaceChar).reverse.length :=
    (List.dropWhile_sublist _).length_le
  simp only [pyStrip, List.length_reverse] at *
  omega

theorem pyStrip_eq_nil {s : List Char} (h : ∀ c ∈ s, isSpaceChar c) :
    pyStrip s = [] := by
  simp [pyStrip, List.dropWhile_eq_nil_iff.mpr h]

/-- Every chunk emitted by the accumulation loop stays within
`chunk_size + overlap + 1` characters, provided every sentence fits in
`chunk_size` and the incoming buffer is within the bound. -/
theorem chunkLoop_chunk_length (cs ov : Nat) (sentences : List (List Char)) :
    ∀ (current : List Char), (∀ s ∈ sentences, s.length ≤ cs) →
      current.length ≤ cs + ov + 1 →
      ∀ c ∈ chunkLoop cs ov current sentences, c.length ≤ cs + ov + 1 := by
  induction sentences with
  | nil =>
    intro current _ hc c hmem
    by_cases he : current.isEmpty
    · simp [chunkLoop, he] at hmem
    · simp only [chunkLoop, if_neg he, List.mem_singleton] at hmem
      exact hmem ▸ hc
  | cons s rest ih =>
    intro current hs hc c hmem
    have hslen : s.length ≤ cs := hs s (by simp)
    have hrest : ∀ x ∈ rest, x.length ≤ cs := fun x hx => hs x (by simp [hx])
    by_cases hfit : current.length + s.length + 1 ≤ cs
    · rw [chunkLoop, if_pos hfit] at hmem
      refine ih _ hrest ?_ c hmem
      have hps := pyStrip_length_le (current ++ ' ' :: s)
      simp only [List.length_append, List.length_cons] at hps
      omega
    · rw [chunkLoop, if_neg hfit] at hmem
      by_cases hemp : current.isEmpty
      · rw [if_pos hemp] at hmem
        have h0 : current.length = 0 := by
          rw [List.isEmpty_iff.mp hemp]; rfl
        refine ih _ hrest ?_ c hmem
        have hps := pyStrip_length_le (current ++ ' ' :: s)
        simp only [List.length_append, List.length_cons] at hps
        omega
      · rw [if_neg hemp] at hmem
        rcases List.mem_cons.mp hmem with rfl | hmem2
        · exact hc
        · refine ih _ hrest ?_ c hmem2
          have hseed : (if 0 < ov ∧ ov < current.length then
              current.drop (current.length - ov) else []).length ≤ ov := by
            by_cases hcnd : 0 < ov ∧ ov < current.length
            · rw [if_pos hcnd, List.length_drop]; omega
            · rw [if_neg hcnd]; exact Nat.zero_le _
          have hps := pyStrip_length_le
            ((if 0 < ov ∧ ov < current.length then
              current.drop (current.length - ov) else []) ++ ' ' :: s)
          simp only [List.length_append, List.length_cons] at hps
          omega

theorem mem_stripSpecial {s : List Char} {c : Char} (h : c ∈ stripSpecial s) :
    c = ' ' ∨ c ∈ s := by
  simp only [stripSpecial, List.mem_filter, List.mem_map] at h
  obtain ⟨⟨a, ha, rfl⟩, -⟩ := h
  by_cases hn : (a == '\u00A0') = true
  · rw [if_pos hn]; exact Or.inl rfl
  · rw [if_neg hn]; exact Or.inr ha

theorem mem_joinHyphenWrapsGo {fuel : Nat} :
    ∀ {l : List Char} {c : Char}, c ∈ joinHyphenWrapsGo fuel l → c ∈ l := by
  induction fuel with
  | zero =>
    intro l c h
    cases l with
    | nil => simp [joinHyphenWrapsGo] at h
    | cons a L => simpa [joinHyphenWrapsGo] using h
  | succ fuel ih =>
    intro l c h
    cases l with
    | nil => simp [joinHyphenWrapsGo] at h
    | cons c1 rest =>
      cases rest with
      | nil =>
        rw [joinHyphenWrapsGo] at h
        rcases List.mem_cons.mp h with rfl | h2
        · exact List.mem_cons_self _ _
        · exact List.mem_cons_of_mem _ (ih h2)
      | cons r rest2 =>
        rw [joinHyphenWrapsGo] at h
        split at h
        · split at h
          · rename_i c2 rest4 hdrop
            split at h
            · rcases List.mem_cons.mp h with rfl | h2
              · exact List.mem_cons_self _ _
              · rcases List.mem_cons.mp h2 with rfl | h3
                · refine List.mem_cons_of_mem _ (List.mem_cons_of_mem _ ?_)
                  exact (List.dropWhile_sublist _).mem
                    (hdrop ▸ List.mem_cons_self _ _)
                · refine List.mem_cons_of_mem _ (List.mem_cons_of_mem _ ?_)
                  exact (List.dropWhile_sublist _).mem
                    (hdrop ▸ List.mem_cons_of_mem _ (ih h3))
            · rcases List.mem_cons.mp h with rfl | h2
              · exact List.mem_cons_self _ _
              · exact List.mem_cons_of_mem _ (ih h2)
          · rcases List.mem_cons.mp h with rfl | h2
            · exact List.mem_cons_self _ _
            · exact List.mem_cons_of_mem _ (ih h2)
        · rcases List.mem_cons.mp h with rfl | h2
          · exact List.mem_cons_self _ _
          · exact List.mem_cons_of_mem _ (ih h2)

theorem mem_collapseNewlineRunsGo {fuel : Nat} :
    ∀ {l : List Char} {c : Char}, c ∈ collapseNewlineRunsGo fuel l →
      c = '\n' ∨ c ∈ l := by
  induction fuel with
  | zero =>
    intro l c h
    cases l with
    | nil => simp [collapseNewlineRunsGo] at h
    | cons a L => right; simpa [collapseNewlineRunsGo] using h
  | succ fuel ih =>
    intro l c h
    cases l with
    | nil => simp [collapseNewlineRunsGo] at h
    | cons a L =>
      rw [collapseNewlineRunsGo] at h
      split at h
      · rcases List.mem_cons.mp h with rfl | h2
        · exact Or.inl rfl
        · rcases ih h2 with h3 | h4
          · exact Or.inl h3
          · exact Or.inr (List.mem_cons_of_mem _ ((List.dropWhile_sublist _).mem h4))
      · rcases List.mem_cons.mp h with rfl | h2
        · exact Or.inr (List.mem_cons_self _ _)
        · rcases ih h2 with h3 | h4
          · exact Or.inl h3
          · exact Or.inr (List.mem_cons_of_mem _ h4)

theorem mem_collapseSpaceRunsGo {fuel : Nat} :
    ∀ {l : List Char} {c : Char}, c ∈ collapseSpaceRunsGo fuel l →
      c = ' ' ∨ c ∈ l := by
  induction fuel with
  | zero =>
    intro l c h
    cases l with
    | nil => simp [collapseSpaceRunsGo] at h
    | cons a L => right; simpa [collapseSpaceRunsGo] using h
  | succ fuel ih =>
    intro l c h
    cases l with
    | nil => simp [collapseSpaceRunsGo] at h
    | cons a L =>
      rw [collapseSpaceRunsGo] at h
      split at h
      · rcases List.mem_cons.mp h with rfl | h2
        · exact Or.inl rfl
        · rcases ih h2 with h3 | h4
          · exact Or.inl h3
          · exact Or.inr (List.mem_cons_of_mem _ ((List.dropWhile_sublist _).mem h4))
      · rcases List.mem_cons.mp h with rfl | h2
        · exact Or.inr (List.mem_cons_self _ _)
        · rcases ih h2 with h3 | h4
          · exact Or.inl h3
          · exact Or.inr (List.mem_cons_of_mem _ h4)

theorem mem_collapseBlankLinesGo {fuel : Nat} :
    ∀ {l : List Char} {c : Char}, c ∈ collapseBlankLinesGo fuel l →
      c = '\n' ∨ c ∈ l := by
  induction fuel with
  | zero =>
    intro l c h
    cases l with
    | nil => simp [collapseBlankLinesGo] at h
    | cons a L => right; simpa [collapseBlankLinesGo] using h
  | succ fuel ih =>
    intro l c h
    cases l with
    | nil => simp [collapseBlankLinesGo] at h
    | cons a L =>
      rw [collapseBlankLinesGo] at h
      split at h
      · rcases List.mem_cons.mp h with rfl | h2
        · exact Or.inl rfl
        · rcases List.mem_cons.mp h2 with rfl | h3
          · exact Or.inl rfl
          · rcases ih h3 with h4 | h5
            · exact Or.inl h4
            · exact Or.inr (List.mem_cons_of_mem _ ((List.dropWhile_sublist _).mem h5))
      · rcases List.mem_cons.mp h with rfl | h2
        · exact Or.inr (List.mem_cons_self _ _)
        · rcases ih h2 with h3 | h4
          · exact Or.inl h3
          · exact Or.inr (List.mem_cons_of_mem _ h4)

/-- For whitespace-only input every normalisation step yields
whitespace-only text, so `normalize_text` yields the empty string. -/
theorem normalize_text_all_space {text : List Char}
    (h : ∀ c ∈ text, isSpaceChar c) : normalize_text text = [] := by
  unfold normalize_text joinHyphenWraps collapseNewlineRuns
    collapseSpaceRuns collapseBlankLines
  apply pyStrip_eq_nil
  intro c hc
  rcases mem_collapseBlankLinesGo hc with rfl | hc
  · rfl
  rcases mem_collapseSpaceRunsGo hc with rfl | hc
  · rfl
  rcases mem_collapseNewlineRunsGo hc with rfl | hc
  · rfl
  have hc := mem_joinHyphenWrapsGo hc
  rcases mem_stripSpecial hc with rfl | hc
  · rfl
  exact h c hc

/-- **C6** (counterexample): with `maxSize = 5`, `overlap = 2` and input
`"ab. cdef."`, every sentence has length at most `maxSize`, yet the
second emitted chunk `"b. cdef."` has length 8 > maxSize + overlap = 7:
the overlap seed plus the separating space pushes a chunk one character
past the claimed bound. -/
theorem C6_counterexample :
    (∀ s ∈ splitSentences (pyStrip (normalize_text "ab. cdef.".toList)),
      s.length ≤ 5) ∧
    ∃ c ∈ split_into_chunks "ab. cdef.".toList 5 2, 5 + 2 < c.length := by
  decide

/-- **C6** (amended): if every sentence of the normalised input has
length at most `maxSize`, every chunk produced by
`split_into_chunks text maxSize overlap` has length at most
`maxSize + overlap + 1`; whitespace-only or empty input yields the
empty sequence. -/
theorem C6_chunk_bound (text : List Char) (cs ov : Nat)
    (hs : ∀ s ∈ splitSentences (pyStrip (normalize_text text)),
      s.length ≤ cs) :
    (∀ c ∈ split_into_chunks text cs ov, c.length ≤ cs + ov + 1) ∧
    ((∀ c ∈ text, isSpaceChar c) → split_into_chunks text cs ov = []) := by
  constructor
  · intro c hc
    simp only [split_into_chunks] at hc
    by_cases hemp : (pyStrip (normalize_text text)).isEmpty = true
    · rw [if_pos hemp] at hc
      simp at hc
    · rw [if_neg hemp] at hc
      exact chunkLoop_chunk_length cs ov _ [] hs (by simp) c
        (List.mem_filter.mp hc).1
  · intro hsp
    have hn := normalize_text_all_space hsp
    simp [split_into_chunks, hn, pyStrip]

/-- Witness for `C6_chunk_bound` at the counterexample input: both
chunks of `"ab. cdef."` fit in `5 + 2 + 1` characters. -/
theorem C6_chunk_bound_witness :
    (∀ s ∈ splitSentences (pyStrip (normalize_text "ab. cdef.".toList)),
      s.length ≤ 5) ∧
    ((∀ c ∈ split_into_chunks "ab. cdef.".toList 5 2,
        c.length ≤ 5 + 2 + 1) ∧
      ((∀ c ∈ "ab. cdef.".toList, isSpaceChar c) →
        split_into_chunks "ab. cdef.".toList 5 2 = [])) :=
  ⟨by decide, C6_chunk_bound "ab. cdef.".toList 5 2 (by decide)⟩

/-! ## Retrieval (`app/services/retrieval.py`) -/

/-- One row of the `document` table (columns used by retrieval,
processing and the document API).  `created_at` timestamps are modelled
as integers. -/
structure Doc where
  id : String := ""
  user_id : String := ""
  filename : String := ""
  content_type : String := ""
  storage_key : Option String := none
  sha256 : String := ""
  size_bytes : Nat := 0
  status : String := "queued"
  created_at : ℤ := 0
  deriving Repr, DecidableEq

/-- One row of the `chunk` table. -/
structure ChunkRow where
  id : Nat := 0
  document_id : String := ""
  user_id : String := ""
  chunk_index : Nat := 0
  content : List Char := []
  page : Nat := 1
  «section» : Option String := some "Body"
  created_at : ℤ := 0
  deriving Repr, DecidableEq

/-- The columns both retrieval queries select: `c.id as chunk_id,
c.document_id, d.filename as document_name, c.page, c.section,
c.content`. -/
structure RRow where
  chunk_id : Nat
  document_id : String
  document_name : String
  page : Nat
  «section» : Option String
  content : List Char
  deriving Repr, DecidableEq

/-- Python `str.split()` (split on whitespace runs, no empty tokens). -/
def pySplit (s : List Char) : List (List Char) :=
  (s.splitOnP isSpaceChar).filter (fun t => !t.isEmpty)

/-- `rewrite_query`: `" ".join(question.strip().lower().split())`. -/
def rewrite_query (question : List Char) : List Char :=
  List.intercalate [' '] (pySplit ((pyStrip question).map Char.toLower))

/-- `[term for term in normalized.split() if len(term) >= 3][:10]`. -/
def queryTerms (question : List Char) : List (List Char) :=
  ((pySplit (rewrite_query question)).filter (fun t => 3 ≤ t.length)).take 10

/-- Python's `needle in hay` substring test. -/
def strContains (hay needle : List Char) : Bool :=
  decide (List.IsInfix needle hay)

/-- `float(sum(1 for term in query_terms if term in content))` with
`content` already lowercased by the caller’s `.lower()`. -/
def keyword_score (terms : List (List Char)) (content : List Char) : Nat :=
  terms.countP (fun t => strContains (content.map Char.toLower) t)

/-- `score = keyword_score + vector_scores.get(chunk_id, 0.0)`; the
vector store is an oracle `vscore` (`0` models a missing entry). -/
def chunkScore (terms : List (List Char)) (vscore : Nat → ℚ)
    (c : ChunkRow) : ℚ :=
  (keyword_score terms c.content : ℚ) + vscore c.id

/-- The SQL `join document d on d.id = c.document_id` (document ids are
primary keys, so `find?` models the join). -/
def docOf (docs : List Doc) (c : ChunkRow) : Option Doc :=
  docs.find? (fun d => d.id == c.document_id)

/-- The optional `and c.document_id = :document_id` filter. -/
def docFilterMatch (document_id : Option String) (c : ChunkRow) : Bool :=
  match document_id with
  | none => true
  | some d => c.document_id == d

/-- The rows of the main candidate query before ordering: the owner's
chunks (optionally restricted to one document) joined with their
document. -/
def candidatePairs (docs : List Doc) (chunks : List ChunkRow)
    (user_id : String) (document_id : Option String) :
    List (ChunkRow × Doc) :=
  chunks.filterMap (fun c =>
    if c.user_id == user_id && docFilterMatch document_id c then
      (docOf docs c).map (fun d => (c, d))
    else none)

/-- `order by c.created_at desc limit :limit` with
`limit = settings.retrieval_limit`. -/
def candidateWindow (docs : List Doc) (chunks : List ChunkRow)
    (user_id : String) (document_id : Option String) :
    List (ChunkRow × Doc) :=
  (List.insertionSort
    (fun a b : ChunkRow × Doc => b.1.created_at ≤ a.1.created_at)
    (candidatePairs docs chunks user_id document_id)).take
    settings.retrieval_limit

/-- The rows of the fallback query before ordering: the owner's chunks
of documents with `status = 'processed'`, plus the optional document
filter. -/
def fallbackPairs (docs : List Doc) (chunks : List ChunkRow)
    (user_id : String) (document_id : Option String) :
    List (ChunkRow × Doc) :=
  chunks.filterMap (fun c =>
    if c.user_id == user_id && docFilterMatch document_id c then
      (docOf docs c).bind
        (fun d => if d.status == "processed" then some (c, d) else none)
    else none)

/-- The fallback ordering `order by d.created_at desc, c.chunk_index
asc`. -/
def fallbackLe (a b : ChunkRow × Doc) : Prop :=
  b.2.created_at < a.2.created_at ∨
    (b.2.created_at = a.2.created_at ∧ a.1.chunk_index ≤ b.1.chunk_index)

instance : DecidableRel fallbackLe := fun a b => by
  unfold fallbackLe; infer_instance

instance : IsTotal (ChunkRow × Doc) fallbackLe :=
  ⟨fun a b => by unfold fallbackLe; omega⟩

instance : IsTrans (ChunkRow × Doc) fallbackLe :=
  ⟨fun a b c h1 h2 => by unfold fallbackLe at *; omega⟩

/-- `scored.sort(key=lambda item: item[0], reverse=True)` sorts by
score descending (stable, as Python's sort is). -/
def scoreLe (a b : ℚ × (ChunkRow × Doc)) : Prop := b.1 ≤ a.1

instance : DecidableRel scoreLe := fun a b => by
  unfold scoreLe; infer_instance

instance : IsTotal (ℚ × (ChunkRow × Doc)) scoreLe :=
  ⟨fun a b => le_total b.1 a.1⟩

instance : IsTrans (ℚ × (ChunkRow × Doc)) scoreLe :=
  ⟨fun a b c h1 h2 => le_trans h2 h1⟩

/-- Assembling one result dict from a chunk/document pair. -/
def toRRow (c : ChunkRow) (d : Doc) : RRow :=
  { chunk_id := c.id, document_id := c.document_id,
    document_name := d.filename, page := c.page,
    «section» := c.«section», content := c.content }

/-- `hybrid_retrieve` of `app/services/retrieval.py`.  The database is
passed as the document and chunk tables; the Qdrant similarity scores
as the oracle `vscore`. -/
def hybrid_retrieve (docs : List Doc) (chunks : List ChunkRow)
    (vscore : Nat → ℚ) (user_id : String) (question : List Char)
    (document_id : Option String) : List RRow :=
  let query_terms := queryTerms question
  let rows := candidateWindow docs chunks user_id document_id
  let scored := (rows.map
    (fun p => (chunkScore query_terms vscore p.1, p))).filter
    (fun sp => 0 < sp.1)
  let sortedScored := List.insertionSort scoreLe scored
  if !sortedScored.isEmpty then
    (sortedScored.take settings.rerank_top_k).map
      (fun sp => toRRow sp.2.1 sp.2.2)
  else
    ((List.insertionSort fallbackLe
        (fallbackPairs docs chunks user_id document_id)).take
      settings.rerank_top_k).map (fun p => toRRow p.1 p.2)

/-! ## Retrieval lemmas and claims -/

theorem fallbackPairs_mem {docs : List Doc} {chunks : List ChunkRow}
    {uid : String} {did : Option String} {p : ChunkRow × Doc}
    (h : p ∈ fallbackPairs docs chunks uid did) :
    p.1 ∈ chunks ∧ p.1.user_id = uid ∧ docFilterMatch did p.1 = true ∧
    docOf docs p.1 = some p.2 ∧ p.2.status = "processed" := by
  obtain ⟨c, hc, heq⟩ := List.mem_filterMap.mp h
  by_cases hcond : (c.user_id == uid && docFilterMatch did c) = true
  · rw [if_pos hcond] at heq
    rcases hdoc : docOf docs c with _ | d
    · rw [hdoc] at heq; simp at heq
    · rw [hdoc, Option.some_bind] at heq
      by_cases hst : (d.status == "processed") = true
      · rw [if_pos hst] at heq
        obtain rfl : (c, d) = p := by simpa using heq
        obtain ⟨h1, h2⟩ := Bool.and_eq_true_iff.mp hcond
        exact ⟨hc, by simpa using h1, h2, hdoc, by simpa using hst⟩
      · rw [if_neg hst] at heq; simp at heq
  · rw [if_neg hcond] at heq; simp at heq

theorem fallbackPairs_mem_of {docs : List Doc} {chunks : List ChunkRow}
    {uid : String} {did : Option String} {c : ChunkRow} {d : Doc}
    (hc : c ∈ chunks) (hu : c.user_id = uid)
    (hf : docFilterMatch did c = true) (hd : docOf docs c = some d)
    (hs : d.status = "processed") :
    (c, d) ∈ fallbackPairs docs chunks uid did := by
  refine List.mem_filterMap.mpr ⟨c, hc, ?_⟩
  simp [hu, hf, hd, hs]

theorem scored_mem {rows : List (ChunkRow × Doc)} {terms : List (List Char)}
    {vscore : Nat → ℚ} {sp : ℚ × (ChunkRow × Doc)}
    (h : sp ∈ (rows.map
      (fun p => (chunkScore terms vscore p.1, p))).filter
      (fun sp => 0 < sp.1)) :
    sp.1 = chunkScore terms vscore sp.2.1 ∧ 0 < sp.1 ∧ sp.2 ∈ rows := by
  obtain ⟨hm, hpos⟩ := List.mem_filter.mp h
  obtain ⟨p, hp, rfl⟩ := List.mem_map.mp hm
  exact ⟨rfl, by simpa using hpos, hp⟩

/-- **C1** (amended): if no candidate in the scoring window has combined
score above zero but at least one processed document *matching the
optional document filter* has a chunk for the owner, `hybrid_retrieve`
returns a non-empty list of at most `rerank_top_k` chunks of processed
documents, ordered by document recency descending and chunk index
ascending. -/
theorem C1_fallback_nonempty (docs : List Doc) (chunks : List ChunkRow)
    (vscore : Nat → ℚ) (user_id : String) (question : List Char)
    (document_id : Option String)
    (hnoscore : ∀ p ∈ candidateWindow docs chunks user_id document_id,
      chunkScore (queryTerms question) vscore p.1 ≤ 0)
    (hexists : ∃ c ∈ chunks, c.user_id = user_id ∧
      docFilterMatch document_id c = true ∧
      ∃ d, docOf docs c = some d ∧ d.status = "processed") :
    hybrid_retrieve docs chunks vscore user_id question document_id ≠ [] ∧
    (hybrid_retrieve docs chunks vscore user_id question
      document_id).length ≤ settings.rerank_top_k ∧
    ∃ ps : List (ChunkRow × Doc),
      hybrid_retrieve docs chunks vscore user_id question document_id =
        ps.map (fun p => toRRow p.1 p.2) ∧
      List.Sorted fallbackLe ps ∧
      ∀ p ∈ ps, p.1 ∈ chunks ∧ p.1.user_id = user_id ∧
        docOf docs p.1 = some p.2 ∧ p.2.status = "processed" := by
  obtain ⟨c, hc, hu, hf, d, hd, hs⟩ := hexists
  have hfb : (c, d) ∈ fallbackPairs docs chunks user_id document_id :=
    fallbackPairs_mem_of hc hu hf hd hs
  have hscored : ((candidateWindow docs chunks user_id document_id).map
      (fun p => (chunkScore (queryTerms question) vscore p.1, p))).filter
      (fun sp => 0 < sp.1) = [] := by
    rw [List.filter_eq_nil_iff]
    intro sp hsp
    obtain ⟨p, hp, rfl⟩ := List.mem_map.mp hsp
    simpa using not_lt.mpr (hnoscore p hp)
  have hres : hybrid_retrieve docs chunks vscore user_id question
      document_id =
      ((List.insertionSort fallbackLe
          (fallbackPairs docs chunks user_id document_id)).take
        settings.rerank_top_k).map (fun p => toRRow p.1 p.2) := by
    simp only [hybrid_retrieve, hscored]
    simp [List.insertionSort]
  set fbp := fallbackPairs docs chunks user_id document_id with hfbp
  set ps := (List.insertionSort fallbackLe fbp).take settings.rerank_top_k
    with hps
  have hsub : List.Sublist ps (List.insertionSort fallbackLe fbp) :=
    List.take_sublist _ _
  have hlen : 0 < ps.length := by
    rw [hps, List.length_take]
    have h1 : 0 < (List.insertionSort fallbackLe fbp).length := by
      rw [(List.perm_insertionSort fallbackLe fbp).length_eq]
      exact List.length_pos.mpr (List.ne_nil_of_mem hfb)
    have h2 : 0 < settings.rerank_top_k := by decide
    omega
  refine ⟨?_, ?_, ps, hres, ?_, ?_⟩
  · rw [hres]
    intro hcon
    rw [List.map_eq_nil_iff] at hcon
    rw [hcon] at hlen
    simp at hlen
  · rw [hres, List.length_map, hps, List.length_take]
    omega
  · exact (List.sorted_insertionSort fallbackLe fbp).sublist hsub
  · intro p hp
    have hmem : p ∈ fbp := (List.mem_insertionSort fallbackLe).mp (hsub.mem hp)
    obtain ⟨h1, h2, _, h4, h5⟩ := fallbackPairs_mem hmem
    exact ⟨h1, h2, h4, h5⟩

/-- A processed document with one chunk, owned by `"u"`. -/
def docA : Doc :=
  { id := "A", user_id := "u", filename := "a.txt",
    status := "processed", created_at := 0 }

/-- A second, unprocessed document of the same owner. -/
def docB : Doc :=
  { id := "B", user_id := "u", filename := "b.txt",
    status := "queued", created_at := 1 }

/-- The chunk of `docA`. -/
def chunkA : ChunkRow :=
  { id := 1, document_id := "A", user_id := "u", chunk_index := 0,
    content := "xyz".toList, created_at := 0 }

/-- **C1** (counterexample): owner `"u"` has the processed document
`docA` with chunk `chunkA`, no candidate scores above zero, yet
`hybrid_retrieve` restricted to the unprocessed document `"B"` returns
the empty list — the fallback query repeats the document filter, so the
unrestricted claim fails. -/
theorem C1_counterexample :
    (∀ p ∈ candidateWindow [docA, docB] [chunkA] "u" (some "B"),
      chunkScore (queryTerms []) (fun _ => 0) p.1 ≤ 0) ∧
    (∃ c ∈ [chunkA], c.user_id = "u" ∧
      ∃ d, docOf [docA, docB] c = some d ∧ d.status = "processed") ∧
    hybrid_retrieve [docA, docB] [chunkA] (fun _ => 0) "u" []
      (some "B") = [] :=
  ⟨by decide, ⟨chunkA, by decide, rfl, docA, by decide, rfl⟩, by decide⟩

/-- Witness for `C1_fallback_nonempty`: a question with no usable terms
over the single processed document, no document filter. -/
theorem C1_fallback_nonempty_witness :
    ((∀ p ∈ candidateWindow [docA] [chunkA] "u" none,
        chunkScore (queryTerms []) (fun _ => 0) p.1 ≤ 0) ∧
      (∃ c ∈ [chunkA], c.user_id = "u" ∧ docFilterMatch none c = true ∧
        ∃ d, docOf [docA] c = some d ∧ d.status = "processed")) ∧
    (hybrid_retrieve [docA] [chunkA] (fun _ => 0) "u" [] none ≠ [] ∧
      (hybrid_retrieve [docA] [chunkA] (fun _ => 0) "u" [] none).length ≤
        settings.rerank_top_k ∧
      ∃ ps : List (ChunkRow × Doc),
        hybrid_retrieve [docA] [chunkA] (fun _ => 0) "u" [] none =
          ps.map (fun p => toRRow p.1 p.2) ∧
        List.Sorted fallbackLe ps ∧
        ∀ p ∈ ps, p.1 ∈ [chunkA] ∧ p.1.user_id = "u" ∧
          docOf [docA] p.1 = some p.2 ∧ p.2.status = "processed") :=
  have h1 : ∀ p ∈ candidateWindow [docA] [chunkA] "u" none,
      chunkScore (queryTerms []) (fun _ => 0) p.1 ≤ 0 := by
    intro p hp
    have hq : queryTerms [] = ([] : List (List Char)) := by decide
    simp [chunkScore, hq, keyword_score]
  have h2 : ∃ c ∈ [chunkA], c.user_id = "u" ∧
      docFilterMatch none c = true ∧
      ∃ d, docOf [docA] c = some d ∧ d.status = "processed" :=
    ⟨chunkA, by decide, rfl, rfl, docA, by decide, rfl⟩
  ⟨⟨h1, h2⟩, C1_fallback_nonempty [docA] [chunkA] (fun _ => 0) "u" [] none h1 h2⟩

/-- **C5**: when some candidate scores above zero, `hybrid_retrieve`
returns exactly the positive-scoring candidates — each scored as the
count of extracted query terms (length ≥ 3, capped at 10) occurring in
the lowercased content, plus the vector similarity (0 when absent) —
sorted by score descending and truncated to `rerank_top_k`; with no
vector signal every score equals the lexical term-overlap count. -/
theorem C5_hybrid_scoring (docs : List Doc) (chunks : List ChunkRow)
    (vscore : Nat → ℚ) (user_id : String) (question : List Char)
    (document_id : Option String)
    (hpos : ∃ p ∈ candidateWindow docs chunks user_id document_id,
      0 < chunkScore (queryTerms question) vscore p.1) :
    ∃ sps : List (ℚ × (ChunkRow × Doc)),
      hybrid_retrieve docs chunks vscore user_id question document_id =
        sps.map (fun sp => toRRow sp.2.1 sp.2.2) ∧
      sps ≠ [] ∧
      sps.length ≤ settings.rerank_top_k ∧
      List.Sorted scoreLe sps ∧
      (∀ sp ∈ sps,
        sp.1 = chunkScore (queryTerms question) vscore sp.2.1 ∧
        0 < sp.1 ∧
        sp.2 ∈ candidateWindow docs chunks user_id document_id) ∧
      ((∀ n, vscore n = 0) → ∀ sp ∈ sps,
        sp.1 = (keyword_score (queryTerms question) sp.2.1.content : ℚ)) := by
  obtain ⟨p, hp, hppos⟩ := hpos
  set rows := candidateWindow docs chunks user_id document_id with hrows
  set scored := (rows.map
    (fun q => (chunkScore (queryTerms question) vscore q.1, q))).filter
    (fun sp => 0 < sp.1) with hscored
  have hmem : (chunkScore (queryTerms question) vscore p.1, p) ∈ scored := by
    rw [hscored]
    refine List.mem_filter.mpr ⟨List.mem_map.mpr ⟨p, hp, rfl⟩, ?_⟩
    simpa using hppos
  have hsne : scored ≠ [] := List.ne_nil_of_mem hmem
  have hlen0 : 0 < (List.insertionSort scoreLe scored).length := by
    rw [(List.perm_insertionSort scoreLe scored).length_eq]
    exact List.length_pos.mpr hsne
  have hie : (List.insertionSort scoreLe scored).isEmpty = false := by
    rcases hee : List.insertionSort scoreLe scored with _ | ⟨a, l⟩
    · rw [hee] at hlen0; simp at hlen0
    · rfl
  refine ⟨(List.insertionSort scoreLe scored).take settings.rerank_top_k,
    ?_, ?_, ?_, ?_, ?_, ?_⟩
  · simp only [hybrid_retrieve, hie]
    rfl
  · have : 0 < ((List.insertionSort scoreLe scored).take
        settings.rerank_top_k).length := by
      rw [List.length_take]
      have h2 : 0 < settings.rerank_top_k := by decide
      omega
    intro hcon
    rw [hcon] at this
    simp at this
  · rw [List.length_take]; omega
  · exact (List.sorted_insertionSort scoreLe scored).sublist
      (List.take_sublist _ _)
  · intro sp hsp
    have : sp ∈ scored := (List.mem_insertionSort scoreLe).mp
      ((List.take_sublist _ _).mem hsp)
    exact scored_mem (hscored ▸ this)
  · intro hv sp hsp
    have hm : sp ∈ scored := (List.mem_insertionSort scoreLe).mp
      ((List.take_sublist _ _).mem hsp)
    obtain ⟨h1, _, _⟩ := scored_mem (hscored ▸ hm)
    rw [h1, chunkScore, hv, add_zero]

/-- A chunk of `docA` whose content matches the question `"hello"`. -/
def chunkW : ChunkRow :=
  { id := 2, document_id := "A", user_id := "u", chunk_index := 0,
    content := "Hello World".toList, created_at := 0 }

/-- Witness for `C5_hybrid_scoring`: the question `"hello"` scores 1 on
`chunkW` lexically with no vector signal. -/
theorem C5_hybrid_scoring_witness :
    (∃ p ∈ candidateWindow [docA] [chunkW] "u" none,
      0 < chunkScore (queryTerms "hello".toList) (fun _ => 0) p.1) ∧
    (∃ sps : List (ℚ × (ChunkRow × Doc)),
      hybrid_retrieve [docA] [chunkW] (fun _ => 0) "u" "hello".toList
        none = sps.map (fun sp => toRRow sp.2.1 sp.2.2) ∧
      sps ≠ [] ∧
      sps.length ≤ settings.rerank_top_k ∧
      List.Sorted scoreLe sps ∧
      (∀ sp ∈ sps,
        sp.1 = chunkScore (queryTerms "hello".toList) (fun _ => 0) sp.2.1 ∧
        0 < sp.1 ∧
        sp.2 ∈ candidateWindow [docA] [chunkW] "u" none) ∧
      ((∀ n : Nat, (fun _ => (0:ℚ)) n = 0) → ∀ sp ∈ sps,
        sp.1 = (keyword_score (queryTerms "hello".toList)
          sp.2.1.content : ℚ))) :=
  have hpos : ∃ p ∈ candidateWindow [docA] [chunkW] "u" none,
      0 < chunkScore (queryTerms "hello".toList) (fun _ => 0) p.1 := by
    refine ⟨(chunkW, docA), by decide, ?_⟩
    show (0:ℚ) < (keyword_score (queryTerms "hello".toList)
      chunkW.content : ℚ) + 0
    have hk : keyword_score (queryTerms "hello".toList) chunkW.content = 1 :=
      by decide
    rw [hk]
    norm_num
  ⟨hpos, C5_hybrid_scoring [docA] [chunkW] (fun _ => 0) "u"
    "hello".toList none hpos⟩

/-! ## Document API (`app/routes/v1.py`) -/

/-- The fields of `DocumentCreateResponse` (`app/models.py`). -/
structure DocumentCreateResponse where
  id : String
  status : String
  created_at : ℤ
  is_duplicate : Bool
  deriving Repr, DecidableEq

/-- The database state the document endpoints touch. -/
structure ApiState where
  documents : List Doc
  jobs : List Job
  deriving Repr, DecidableEq

/-- The fields of `DocumentCreateRequest` (`app/models.py`). -/
structure DocumentCreateRequest where
  filename : String
  content_type : String
  sha256 : String
  size_bytes : Nat
  deriving Repr, DecidableEq

/-- An `UploadFile`: FastAPI leaves `filename` and `content_type`
optional. -/
structure UploadFilePayload where
  filename : Option String
  content_type : Option String
  content : List Nat
  deriving Repr, DecidableEq

/-- `select id, status, created_at from document where user_id = :uid
and sha256 = :sha order by created_at desc limit 1`. -/
def findExistingDoc (docs : List Doc) (uid sha : String) : Option Doc :=
  (List.insertionSort (fun a b : Doc => b.created_at ≤ a.created_at)
    (docs.filter (fun d => d.user_id == uid && d.sha256 == sha))).head?

/-- `create_document` (POST `/documents`): dedup on (owner, sha256).
`new_id` and `now` stand for `uuid4()` and `datetime.now()`. -/
def create_document (st : ApiState) (uid : String)
    (payload : DocumentCreateRequest) (new_id : String) (now : ℤ) :
    DocumentCreateResponse × ApiState :=
  match findExistingDoc st.documents uid payload.sha256 with
  | some existing =>
    ({ id := existing.id, status := existing.status,
       created_at := existing.created_at, is_duplicate := true }, st)
  | none =>
    ({ id := new_id, status := "queued", created_at := now,
       is_duplicate := false },
     { st with documents := st.documents ++
        [{ id := new_id, user_id := uid, filename := payload.filename,
           content_type := payload.content_type,
           sha256 := payload.sha256, size_bytes := payload.size_bytes,
           status := "queued", created_at := now }] })

/-- `save_user_file` of `app/services/storage.py`:
`{local_upload_dir}/{user_id}/{document_id}_{safe_name}` with path
separators in the original name replaced by `_`. -/
def save_user_file (user_id document_id original_name : String) : String :=
  String.mk settings.local_upload_dir ++ "/" ++ user_id ++ "/" ++
    document_id ++ "_" ++
    original_name.map (fun ch => if ch == '\\' ∨ ch == '/' then '_' else ch)

def allowed_content_types : List String :=
  ["application/pdf",
   "application/vnd.openxmlformats-officedocument.wordprocessingml.document",
   "text/plain"]

/-- `upload_document` (POST `/documents/upload`).  `hashFn` models
`hashlib.sha256(content).hexdigest()`; errors carry the HTTP status
code and detail. -/
def upload_document (hashFn : List Nat → String) (st : ApiState)
    (uid : String) (file : UploadFilePayload) (new_id : String)
    (now : ℤ) :
    Except (Nat × String) (DocumentCreateResponse × ApiState) :=
  if ¬ (match file.content_type with
        | some t => allowed_content_types.contains t
        | none => false) = true then
    .error (400, "Only PDF, DOCX, and TXT are allowed")
  else if file.content.isEmpty then
    .error (400, "Uploaded file is empty")
  else if settings.max_upload_mb * 1024 * 1024 < file.content.length then
    .error (413, "File exceeds the size limit")
  else
    let sha := hashFn file.content
    match findExistingDoc st.documents uid sha with
    | some existing =>
      .ok ({ id := existing.id, status := existing.status,
             created_at := existing.created_at, is_duplicate := true }, st)
    | none =>
      let filename := file.filename.getD "upload.bin"
      let storage_key := save_user_file uid new_id filename
      .ok ({ id := new_id, status := "queued", created_at := now,
             is_duplicate := false },
        { st with documents := st.documents ++
          [{ id := new_id, user_id := uid, filename := filename,
             content_type := file.content_type.getD
               "application/octet-stream",
             storage_key := some storage_key, sha256 := sha,
             size_bytes := file.content.length, status := "queued",
             created_at := now }] })

/-- If some document of the owner carries the hash, the dedup lookup
returns one that does. -/
theorem findExistingDoc_some {docs : List Doc} {uid sha : String}
    (h : ∃ d ∈ docs, d.user_id = uid ∧ d.sha256 = sha) :
    ∃ e, findExistingDoc docs uid sha = some e ∧ e ∈ docs ∧
      e.user_id = uid ∧ e.sha256 = sha := by
  obtain ⟨d, hd, hu, hs⟩ := h
  have hmemf : d ∈ docs.filter
      (fun d => d.user_id == uid && d.sha256 == sha) :=
    List.mem_filter.mpr ⟨hd, by simp [hu, hs]⟩
  have hmems : d ∈ List.insertionSort
      (fun a b : Doc => b.created_at ≤ a.created_at)
      (docs.filter (fun d => d.user_id == uid && d.sha256 == sha)) :=
    (List.mem_insertionSort _).mpr hmemf
  rcases hh : List.insertionSort
      (fun a b : Doc => b.created_at ≤ a.created_at)
      (docs.filter (fun d => d.user_id == uid && d.sha256 == sha)) with
    _ | ⟨e, l⟩
  · rw [hh] at hmems; simp at hmems
  · have hmem : e ∈ docs.filter
        (fun d => d.user_id == uid && d.sha256 == sha) :=
      (List.mem_insertionSort _).mp (hh ▸ List.mem_cons_self e l)
    obtain ⟨he, hprop⟩ := List.mem_filter.mp hmem
    obtain ⟨h1, h2⟩ := Bool.and_eq_true_iff.mp hprop
    exact ⟨e, by rw [findExistingDoc, hh]; rfl, he, by simpa using h1,
      by simpa using h2⟩

/-- **C8**: registering (`create_document`) or uploading
(`upload_document`) content whose hash matches an existing document of
the same owner returns that document's identity with
`is_duplicate = true`, changes no document row and creates no job. -/
theorem C8_dedup (st : ApiState) (uid : String)
    (payload : DocumentCreateRequest) (file : UploadFilePayload)
    (hashFn : List Nat → String) (new_id : String) (now : ℤ)
    (hctype : (match file.content_type with
        | some t => allowed_content_types.contains t
        | none => false) = true)
    (hne : file.content.isEmpty = false)
    (hsize : file.content.length ≤ settings.max_upload_mb * 1024 * 1024)
    (hdupC : ∃ d ∈ st.documents, d.user_id = uid ∧
      d.sha256 = payload.sha256)
    (hdupU : ∃ d ∈ st.documents, d.user_id = uid ∧
      d.sha256 = hashFn file.content) :
    ((create_document st uid payload new_id now).1.is_duplicate = true ∧
      (∃ d ∈ st.documents, d.user_id = uid ∧ d.sha256 = payload.sha256 ∧
        (create_document st uid payload new_id now).1.id = d.id) ∧
      (create_document st uid payload new_id now).2 = st) ∧
    ∃ resp, upload_document hashFn st uid file new_id now =
        .ok (resp, st) ∧
      resp.is_duplicate = true ∧
      ∃ d ∈ st.documents, d.user_id = uid ∧
        d.sha256 = hashFn file.content ∧ resp.id = d.id := by
  obtain ⟨e, hfind, he, heu, hes⟩ := findExistingDoc_some hdupC
  obtain ⟨e', hfind', he', heu', hes'⟩ := findExistingDoc_some hdupU
  constructor
  · refine ⟨?_, ⟨e, he, heu, hes, ?_⟩, ?_⟩ <;>
      simp [create_document, hfind]
  · refine ⟨⟨e'.id, e'.status, e'.created_at, true⟩, ?_, rfl,
      e', he', heu', hes', rfl⟩
    rw [upload_document, if_neg (by rw [hctype]; simp),
      if_neg (by rw [hne]; simp), if_neg (by omega)]
    simp only [hfind']

/-- A registered document of owner `"u"` with content hash `"h1"`. -/
def docH : Doc :=
  { id := "D", user_id := "u", filename := "f.txt",
    content_type := "text/plain", storage_key := some "k", sha256 := "h1",
    size_bytes := 3, status := "processed", created_at := 0 }

/-- Witness for `C8_dedup`: re-registering and re-uploading the bytes
hashing to `"h1"` for owner `"u"`. -/
theorem C8_dedup_witness :
    (((match (some "text/plain" : Option String) with
        | some t => allowed_content_types.contains t
        | none => false) = true) ∧
      ([1, 2, 3] : List Nat).isEmpty = false ∧
      ([1, 2, 3] : List Nat).length ≤
        settings.max_upload_mb * 1024 * 1024 ∧
      (∃ d ∈ [docH], d.user_id = "u" ∧ d.sha256 = "h1") ∧
      (∃ d ∈ [docH], d.user_id = "u" ∧
        d.sha256 = (fun _ : List Nat => "h1") [1, 2, 3])) ∧
    (((create_document ⟨[docH], []⟩ "u"
          ⟨"f.txt", "text/plain", "h1", 3⟩ "N" 9).1.is_duplicate = true ∧
        (∃ d ∈ [docH], d.user_id = "u" ∧ d.sha256 = "h1" ∧
          (create_document ⟨[docH], []⟩ "u"
            ⟨"f.txt", "text/plain", "h1", 3⟩ "N" 9).1.id = d.id) ∧
        (create_document ⟨[docH], []⟩ "u"
          ⟨"f.txt", "text/plain", "h1", 3⟩ "N" 9).2 = ⟨[docH], []⟩) ∧
      ∃ resp, upload_document (fun _ => "h1") ⟨[docH], []⟩ "u"
          ⟨some "f.txt", some "text/plain", [1, 2, 3]⟩ "N" 9 =
          .ok (resp, ⟨[docH], []⟩) ∧
        resp.is_duplicate = true ∧
        ∃ d ∈ [docH], d.user_id = "u" ∧
          d.sha256 = (fun _ : List Nat => "h1") [1, 2, 3] ∧
          resp.id = d.id) :=
  ⟨⟨by decide, by decide, by decide,
      ⟨docH, by decide, rfl, rfl⟩, ⟨docH, by decide, rfl, rfl⟩⟩,
    C8_dedup ⟨[docH], []⟩ "u" ⟨"f.txt", "text/plain", "h1", 3⟩
      ⟨some "f.txt", some "text/plain", [1, 2, 3]⟩ (fun _ => "h1") "N" 9
      (by decide) (by decide) (by decide)
      ⟨docH, by decide, rfl, rfl⟩ ⟨docH, by decide, rfl, rfl⟩⟩

/-! ## Document processing
(`app/services/processing.py::process_document_sync`,
`app/services/ingestion.py::extract_text`) -/

/-- The session state `process_document_sync` touches: the document and
chunk tables, the vector collection (chunk-id keyed points), and the
`bigserial` counter behind `chunk.id`. -/
structure PState where
  documents : List Doc
  chunks : List ChunkRow
  vectors : List (Nat × List Char)
  next_chunk_id : Nat
  deriving Repr, DecidableEq

/-- `Path(storage_key).suffix`: the extension (with dot) of the final
path component, or `""` (CPython: `name[i:]` for `i = name.rfind('.')`
when `0 < i < len(name) - 1`). -/
def pathSuffix (storage_key : String) : String :=
  let nm := (storage_key.toList.splitOnP (fun ch => ch == '/')).getLastD []
  let r := nm.reverse
  match r.findIdx? (fun ch => ch == '.') with
  | none => ""
  | some j =>
    if 0 < j ∧ j < nm.length - 1 then String.mk (r.take (j + 1)).reverse
    else ""

/-- `extract_text` with its collaborators as oracles: `fs` returns the
decoded text of an existing file (`none` models `FileNotFoundError`),
`pdfE`/`docxE` return the joined raw text the respective parser
libraries extract (`.error` models a parser exception). -/
def extract_text (fs : String → Option (List Char))
    (pdfE docxE : String → Except String (List Char))
    (storage_key : String) (content_type : String) :
    Except String (List Char) :=
  match fs storage_key with
  | none => .error ("FileNotFoundError: " ++ storage_key)
  | some fileText =>
    let normalized_type := content_type.toLower
    let suffix := (pathSuffix storage_key).toLower
    if normalized_type = "text/plain" ∨ suffix = ".txt" then
      let text := normalize_text fileText
      if ¬ text.isEmpty then .ok text
      else .error "TXT file has no readable text"
    else if normalized_type = "application/pdf" ∨ suffix = ".pdf" then
      match pdfE storage_key with
      | .error e => .error e
      | .ok pages =>
        let text := pyStrip (normalize_text pages)
        if ¬ text.isEmpty then .ok text
        else .error "PDF file has no extractable text"
    else if normalized_type =
        "application/vnd.openxmlformats-officedocument.wordprocessingml.document"
        ∨ suffix = ".docx" then
      match docxE storage_key with
      | .error e => .error e
      | .ok paragraphs =>
        let text := pyStrip (normalize_text paragraphs)
        if ¬ text.isEmpty then .ok text
        else .error "DOCX file has no extractable text"
    else .error ("Unsupported content type for parser: " ++ content_type)

/-- `process_document_sync`, threading the uncommitted session state
explicitly.  The source's statement order is kept: document lookup,
storage-key check and extraction all precede the chunk delete, the
chunk inserts, the vector upsert and the status update, so on any
`.error` the state comes back untouched. -/
def process_document_sync (fs : String → Option (List Char))
    (pdfE docxE : String → Except String (List Char))
    (st : PState) (user_id document_id : String) (now : ℤ) :
    PState × Except String Nat :=
  match st.documents.find?
      (fun d => d.id == document_id && d.user_id == user_id) with
  | none => (st, .error "Document not found for user")
  | some doc =>
    match doc.storage_key with
    | none => (st, .error "Document has no storage key")
    | some sk =>
      if sk = "" then (st, .error "Document has no storage key")
      else
        match extract_text fs pdfE docxE sk doc.content_type with
        | .error e => (st, .error e)
        | .ok text_content =>
          let cs := split_into_chunks text_content 800 120
          let st1 := { st with
            chunks := st.chunks.filter (fun c => c.document_id != document_id) }
          let newChunks : List ChunkRow := ((List.range cs.length).zip cs).map
            (fun ic =>
              ({ id := st.next_chunk_id + ic.1,
                 document_id := document_id, user_id := user_id,
                 chunk_index := ic.1, content := ic.2, page := 1,
                 «section» := some "Body", created_at := now } : ChunkRow))
          let allChunks := st1.chunks ++ newChunks
          let st2 := { st1 with
            chunks := allChunks,
            next_chunk_id := st.next_chunk_id + cs.length }
          let newIds : List Nat := newChunks.map (fun c => c.id)
          let keptVectors := st2.vectors.filter (fun v => !(newIds.contains v.1))
          let newVectors : List (Nat × List Char) :=
            newChunks.map (fun c => (c.id, c.content))
          let st3 := { st2 with vectors := keptVectors ++ newVectors }
          let newDocs : List Doc := st3.documents.map
            (fun d =>
              if d.id == document_id then { d with status := "processed" }
              else d)
          let st4 := { st3 with documents := newDocs }
          (st4, .ok cs.length)

/-- **C9**: when extraction raises (missing file, unsupported content
type, whitespace-only extracted text — any `extract_text` failure),
`process_document_sync` raises before performing any chunk deletion,
chunk insertion, vector upsert or document status update: the session
state it returns is exactly the input state. -/
theorem C9_failed_extraction_frame (fs : String → Option (List Char))
    (pdfE docxE : String → Except String (List Char)) (st : PState)
    (user_id document_id : String) (now : ℤ) (doc : Doc) (sk e : String)
    (hfind : st.documents.find?
      (fun d => d.id == document_id && d.user_id == user_id) = some doc)
    (hsk : doc.storage_key = some sk) (hsk2 : sk ≠ "")
    (hext : extract_text fs pdfE docxE sk doc.content_type = .error e) :
    process_document_sync fs pdfE docxE st user_id document_id now =
      (st, .error e) := by
  rw [process_document_sync, hfind]
  simp only [hsk, if_neg hsk2, hext]

/-- The document of the `C9` witness: a text file whose storage key
points nowhere. -/
def docT : Doc :=
  { id := "T", user_id := "u", filename := "t.txt",
    content_type := "text/plain", storage_key := some "missing.txt",
    sha256 := "h2", size_bytes := 1, status := "queued", created_at := 0 }

/-- Witness for `C9_failed_extraction_frame`: the file is missing, so
extraction fails with `FileNotFoundError` and the state (including the
pre-existing chunk) is returned unchanged. -/
theorem C9_failed_extraction_frame_witness :
    ((⟨[docT], [chunkA], [], 5⟩ : PState).documents.find?
        (fun d => d.id == "T" && d.user_id == "u") = some docT ∧
      docT.storage_key = some "missing.txt" ∧ "missing.txt" ≠ "" ∧
      extract_text (fun _ => none) (fun _ => .error "pdf")
        (fun _ => .error "docx") "missing.txt" docT.content_type =
        .error ("FileNotFoundError: " ++ "missing.txt")) ∧
    process_document_sync (fun _ => none) (fun _ => .error "pdf")
        (fun _ => .error "docx") ⟨[docT], [chunkA], [], 5⟩ "u" "T" 7 =
      (⟨[docT], [chunkA], [], 5⟩,
        .error ("FileNotFoundError: " ++ "missing.txt")) :=
  ⟨⟨by decide, rfl, by decide, rfl⟩,
    C9_failed_extraction_frame (fun _ => none) (fun _ => .error "pdf")
      (fun _ => .error "docx") ⟨[docT], [chunkA], [], 5⟩ "u" "T" 7 docT
      "missing.txt" ("FileNotFoundError: " ++ "missing.txt")
      (by decide) rfl (by decide) rfl⟩
